import Mathlib

/-!
Verification development for the JS8Call-to-LXMF bridge bot
(`lxmfy_js8call_bot/bot.py`).  Strings are embedded as lists of
characters; the Python string operations used by the bot
(`split(':')`, `strip()`, `startswith`, `lower`, substring `in`,
`join`) are defined below with Python's semantics, and the bot's
message handling, registry operations and persistence are shallowly
embedded over them.
-/

namespace JS8Bot

/-- Strings of the embedded program: lists of characters. -/
abbrev Str := List Char

/-- Python `str.split(sep)` for a single-character separator `c`:
splits on every occurrence, keeping empty segments, and yields `[[]]`
on the empty string.  Never returns the empty list. -/
def splitOnChar (c : Char) : Str → List Str
  | [] => [[]]
  | x :: xs =>
    match splitOnChar c xs with
    | [] => [[]]
    | p :: ps => if x = c then [] :: p :: ps else (x :: p) :: ps

/-- Python `sep.join(parts)` for a single-character separator. -/
def joinChar (c : Char) : List Str → Str
  | [] => []
  | [p] => p
  | p :: q :: ps => p ++ c :: joinChar c (q :: ps)

/-- Whitespace characters stripped by Python `str.strip()` (the ones
relevant to this protocol). -/
def isSpaceChar (ch : Char) : Bool :=
  ch = ' ' || ch = '\t' || ch = '\n' || ch = '\r'

/-- Python `str.strip()`: drop leading and trailing whitespace. -/
def trimChars (l : Str) : Str :=
  ((l.dropWhile isSpaceChar).reverse.dropWhile isSpaceChar).reverse

/-- Python `str.startswith(p)`: the first argument starts with the second. -/
def startsWithStr : Str → Str → Bool
  | _, [] => true
  | [], _ :: _ => false
  | x :: xs, y :: ys => x = y && startsWithStr xs ys

/-- Python `needle in hay`: substring containment. -/
def containsSub (needle : Str) : Str → Bool
  | [] => startsWithStr [] needle
  | x :: xs => startsWithStr (x :: xs) needle || containsSub needle xs

/-- Python `str.lower()` applied characterwise. -/
def lowerStr (l : Str) : Str := l.map Char.toLower

theorem splitOnChar_ne_nil (c : Char) (l : Str) : splitOnChar c l ≠ [] := by
  cases l with
  | nil => simp [splitOnChar]
  | cons x xs =>
    simp only [splitOnChar]
    cases h : splitOnChar c xs with
    | nil => simp
    | cons p ps =>
      by_cases hx : x = c <;> simp [hx]

theorem splitOnChar_not_mem (c : Char) (l : Str) (h : c ∉ l) :
    splitOnChar c l = [l] := by
  induction l with
  | nil => rfl
  | cons x xs ih =>
    simp only [List.mem_cons, not_or] at h
    have hx : ¬ x = c := fun hx => h.1 hx.symm
    simp only [splitOnChar]
    rw [ih h.2]
    simp [hx]

/-- Splitting on the first occurrence of the separator: if `c` does not
occur in `pre`, then `split (pre ++ c :: suf) = pre :: split suf`. -/
theorem splitOnChar_append (c : Char) (pre suf : Str) (h : c ∉ pre) :
    splitOnChar c (pre ++ c :: suf) = pre :: splitOnChar c suf := by
  induction pre with
  | nil =>
    simp only [List.nil_append, splitOnChar]
    cases hs : splitOnChar c suf with
    | nil => exact absurd hs (splitOnChar_ne_nil c suf)
    | cons p ps => simp
  | cons x xs ih =>
    simp only [List.mem_cons, not_or] at h
    have hx : ¬ x = c := fun hx => h.1 hx.symm
    simp only [List.cons_append, splitOnChar, List.append_eq]
    rw [ih h.2]
    simp [hx]

/-- `join` undoes `split`. -/
theorem joinChar_splitOnChar (c : Char) (l : Str) :
    joinChar c (splitOnChar c l) = l := by
  induction l with
  | nil => rfl
  | cons x xs ih =>
    simp only [splitOnChar]
    cases hs : splitOnChar c xs with
    | nil => exact absurd hs (splitOnChar_ne_nil c xs)
    | cons p ps =>
      rw [hs] at ih
      by_cases hx : x = c
      · subst hx
        simp only [if_pos rfl, joinChar]
        cases ps <;> simpa [joinChar] using ih
      · simp only [if_neg hx]
        cases ps <;> simpa [joinChar] using ih

theorem splitOnChar_length_one (c : Char) (l : Str) (h : c ∉ l) :
    (splitOnChar c l).length = 1 := by
  rw [splitOnChar_not_mem c l h]; rfl

/-- If the separator occurs, it splits the string around its first
occurrence. -/
theorem exists_split_at_first (c : Char) (l : Str) (h : c ∈ l) :
    ∃ pre suf, c ∉ pre ∧ l = pre ++ c :: suf := by
  induction l with
  | nil => cases h
  | cons x xs ih =>
    by_cases hx : x = c
    · exact ⟨[], xs, by simp, by simp [hx]⟩
    · rcases List.mem_cons.mp h with h1 | h2
      · exact absurd h1.symm hx
      · obtain ⟨pre, suf, hp, he⟩ := ih h2
        refine ⟨x :: pre, suf, ?_, by simp [he]⟩
        simp only [List.mem_cons, not_or]
        exact ⟨fun hc => hx hc.symm, hp⟩

/-- If the separator occurs, the split has at least two parts. -/
theorem splitOnChar_length_ge_two (c : Char) (l : Str) (h : c ∈ l) :
    2 ≤ (splitOnChar c l).length := by
  obtain ⟨pre, suf, hpre, rfl⟩ := exists_split_at_first c l h
  rw [splitOnChar_append c pre suf hpre]
  have hne := splitOnChar_ne_nil c suf
  cases hs : splitOnChar c suf with
  | nil => exact absurd hs hne
  | cons p ps => simp

theorem dropWhile_idem (p : Char → Bool) (l : Str) :
    (l.dropWhile p).dropWhile p = l.dropWhile p := by
  induction l with
  | nil => rfl
  | cons x xs ih =>
    by_cases hx : p x
    · simpa [List.dropWhile, hx] using ih
    · simp [List.dropWhile, hx]

theorem dropWhile_cons_head (p : Char → Bool) (l : Str) (x : Char) (xs : Str)
    (h : l.dropWhile p = x :: xs) : p x = false := by
  induction l with
  | nil => simp [List.dropWhile] at h
  | cons y ys ih =>
    by_cases hy : p y
    · exact ih (by simpa [List.dropWhile, hy] using h)
    · simp only [List.dropWhile, hy] at h
      cases h
      simpa using hy

theorem dropWhile_append_singleton (p : Char → Bool) (m : Str) (x : Char)
    (hx : p x = false) : (m ++ [x]).dropWhile p = m.dropWhile p ++ [x] := by
  induction m with
  | nil => simp [List.dropWhile, hx]
  | cons y ys ih =>
    by_cases hy : p y
    · simpa [List.dropWhile, hy] using ih
    · simp [List.dropWhile, hy]

/-- A fully trimmed string has no leading whitespace left. -/
theorem dropWhile_trimChars (l : Str) :
    (trimChars l).dropWhile isSpaceChar = trimChars l := by
  unfold trimChars
  cases ha : l.dropWhile isSpaceChar with
  | nil => simp
  | cons x xs =>
    have hx : isSpaceChar x = false := dropWhile_cons_head _ _ _ _ ha
    rw [List.reverse_cons, dropWhile_append_singleton _ _ _ hx,
      List.reverse_append]
    simp [List.dropWhile, hx]

/-- Python `strip()` is idempotent. -/
theorem trimChars_idem (l : Str) : trimChars (trimChars l) = trimChars l := by
  conv_lhs => rw [trimChars, dropWhile_trimChars]
  rw [trimChars, List.reverse_reverse, dropWhile_idem]

end JS8Bot

namespace JS8Bot

/-- A decoded JSON event from the radio endpoint, carrying the two
fields the handler reads: `data['type']` and `data['value']`. -/
structure RadioEvent where
  type : Str
  value : Str

/-- The sender/content parse of `handle_js8call_message` (bot.py
306-312): `parts = value.split(':')`; fewer than two parts means drop;
otherwise sender is `parts[0].strip()` and content is
`':'.join(parts[1:]).strip()`. -/
def parseDirected (value : Str) : Option (Str × Str) :=
  let parts := splitOnChar ':' value
  if parts.length < 2 then none
  else some (trimChars parts.headI, trimChars (joinChar ':' parts.tail))

/-- A routed message: scope, sender and stripped body. -/
inductive Routed where
  | group (g sender body : Str)
  | urgent (g sender body : Str)
  | direct (sender body : Str)
deriving DecidableEq, Repr

/-- Outcome of handling one decoded radio event. -/
inductive HandleResult where
  | ignored
  | invalidFormat
  | blocked (sender : Str)
  | routed (m : Routed)
deriving DecidableEq, Repr

/-- The blocked-word check (bot.py 315): any configured word occurs,
case-insensitively, as a substring of the content. -/
def containsBlocked (blockedWords : List Str) (content : Str) : Bool :=
  blockedWords.any (fun w => containsSub (lowerStr w) (lowerStr content))

/-- Scope resolution (bot.py 319-336): the first ordinary group whose
name the content starts with wins and its name is stripped; otherwise
the first urgent group; otherwise the message is direct. -/
def resolveScope (js8groups js8urgent : List Str) (sender content : Str) :
    Routed :=
  match js8groups.find? (fun g => startsWithStr content g) with
  | some g => .group g sender (trimChars (content.drop g.length))
  | none =>
    match js8urgent.find? (fun g => startsWithStr content g) with
    | some g => .urgent g sender (trimChars (content.drop g.length))
    | none => .direct sender content

/-- `handle_js8call_message` (bot.py 301-336) as a classification
function: only `RX.DIRECTED` events are considered; the value is
parsed into sender and content; blocked content is dropped; otherwise
the message is routed by scope. -/
def handle_js8call_message (js8groups js8urgent blockedWords : List Str)
    (ev : RadioEvent) : HandleResult :=
  if ev.type = "RX.DIRECTED".data then
    match parseDirected ev.value with
    | none => .invalidFormat
    | some sc =>
      if containsBlocked blockedWords sc.2 then .blocked sc.1
      else .routed (resolveScope js8groups js8urgent sc.1 sc.2)
  else .ignored

/-- Group-catalog parsing in `setup_js8call` (bot.py 65-68): split the
configured string on `,` and strip each entry (empty entries are kept). -/
def parseGroupsConfig (cfg : Str) : List Str :=
  (splitOnChar ',' cfg).map trimChars

/-- Default-group parsing in `add_to_distro_list` (bot.py 114-115):
split on `,`, strip, and keep only non-empty entries. -/
def parseDefaultGroups (cfg : Str) : List Str :=
  ((splitOnChar ',' cfg).map trimChars).filter (fun g => !g.isEmpty)

example : parseDirected "N0CALL: Hello world".data
    = some ("N0CALL".data, "Hello world".data) := by decide

example : parseDirected "NOCOLON".data = none := by decide

example : parseDirected "A: b:c ".data = some ("A".data, "b:c".data) := by
  decide

example :
    handle_js8call_message ["TEAM".data] [] []
      ⟨"RX.DIRECTED".data, "N0CALL:TEAM status ok".data⟩
    = .routed (.group "TEAM".data "N0CALL".data "status ok".data) := by decide

example :
    handle_js8call_message ["TEAM".data] [] []
      ⟨"RX.DIRECTED".data, "N0CALL: Hello world".data⟩
    = .routed (.direct "N0CALL".data "Hello world".data) := by decide

example :
    handle_js8call_message ["TEAM".data] [] ["SPAM".data]
      ⟨"RX.DIRECTED".data, "N0CALL: buy spam now".data⟩
    = .blocked "N0CALL".data := by decide

example : parseGroupsConfig "".data = [[]] := by decide

example :
    handle_js8call_message (parseGroupsConfig "".data) ["ALERT".data] []
      ⟨"RX.DIRECTED".data, "N0CALL: Hello".data⟩
    = .routed (.group [] "N0CALL".data "Hello".data) := by decide

end JS8Bot

namespace JS8Bot

/-- In-memory subscription registry (bot.py `setup_state`, 70-79):
distribution list, per-user group membership and per-user mute sets.
The Python `defaultdict(set)` maps are modelled as total functions
defaulting to the empty set; `pop` is modelled as resetting to `∅`. -/
structure Registry where
  distro : Finset Str
  userGroups : Str → Finset Str
  mutedUsers : Str → Finset Str

/-- The fresh state built by `setup_state` before any load. -/
def Registry.init : Registry := ⟨∅, fun _ => ∅, fun _ => ∅⟩

/-- Python `', '.join(parts)`. -/
def joinStr (sep : Str) : List Str → Str
  | [] => []
  | [p] => p
  | p :: q :: ps => p ++ sep ++ joinStr sep (q :: ps)

/-- Notice text of bot.py line 131. -/
def alreadyJoinedMsg : Str :=
  "You are already in the JS8Call message group.".data

/-- Notice text of bot.py lines 123-126. -/
def welcomeMsg (defaultGroups : List Str) : Str :=
  "You have been added to the JS8Call message group".data ++
    (if defaultGroups.isEmpty then []
     else " and the following default groups: ".data ++
       joinStr ", ".data defaultGroups) ++
    ". You will receive messages when they are available.".data

/-- Notice text of bot.py line 143. -/
def removedAllMsg : Str :=
  "You have been removed from the JS8Call message group and all groups.".data

/-- Notice text of bot.py line 146. -/
def notJoinedMsg : Str := "You are not in the JS8Call message group.".data

/-- Notice text of bot.py line 158. -/
def addedToGroupsMsg (groups : List Str) : Str :=
  "You have been added to the following groups: ".data ++
    joinStr ", ".data groups

/-- Notice text of bot.py line 161. -/
def needJoinMsg : Str :=
  "You need to join the JS8Call message group first. Use /add command.".data

/-- Notice text of bot.py line 171. -/
def removedFromGroupMsg (group : Str) : Str :=
  "You have been removed from the group: ".data ++ group

/-- Notice text of bot.py line 174. -/
def notInGroupMsg (group : Str) : Str :=
  "You are not in the group: ".data ++ group

/-- Result of a registry operation: the new state and the notices sent
through the delivery capability, as (recipient, text) pairs. -/
structure OpResult where
  state : Registry
  notices : List (Str × Str)

/-- `add_to_distro_list` (bot.py 109-131): if the user is absent, add
them to the distribution list, union the configured default groups
into their membership, and send a welcome notice; otherwise leave the
state alone and send an already-joined notice. -/
def add_to_distro_list (defaultGroups : List Str) (s : Registry)
    (user : Str) : OpResult :=
  if user ∉ s.distro then
    { state :=
        { distro := insert user s.distro,
          userGroups := fun u =>
            if u = user then s.userGroups u ∪ defaultGroups.toFinset
            else s.userGroups u,
          mutedUsers := s.mutedUsers },
      notices := [(user, welcomeMsg defaultGroups)] }
  else { state := s, notices := [(user, alreadyJoinedMsg)] }

/-- `remove_from_distro_list` (bot.py 133-146): if the user is present,
remove them from the distribution list and drop their membership and
mute entries; otherwise leave the state alone with a not-joined notice. -/
def remove_from_distro_list (s : Registry) (user : Str) : OpResult :=
  if user ∈ s.distro then
    { state :=
        { distro := s.distro.erase user,
          userGroups := fun u => if u = user then ∅ else s.userGroups u,
          mutedUsers := fun u => if u = user then ∅ else s.mutedUsers u },
      notices := [(user, removedAllMsg)] }
  else { state := s, notices := [(user, notJoinedMsg)] }

/-- `add_user_to_groups` (bot.py 148-161): requires membership in the
distribution list; adds only the requested groups present in one of
the two catalogs. -/
def add_user_to_groups (js8groups js8urgent : List Str) (s : Registry)
    (user : Str) (groups : List Str) : OpResult :=
  if user ∈ s.distro then
    { state :=
        { s with userGroups := fun u =>
            if u = user then
              s.userGroups u ∪
                (groups.filter
                  (fun g => js8groups.contains g || js8urgent.contains g)).toFinset
            else s.userGroups u },
      notices := [(user, addedToGroupsMsg groups)] }
  else { state := s, notices := [(user, needJoinMsg)] }

/-- `remove_user_from_group` (bot.py 163-174): removes one membership
entry when the user is in the distribution list and a member of the
group; otherwise a no-op with a notice. -/
def remove_user_from_group (s : Registry) (user group : Str) : OpResult :=
  if user ∈ s.distro ∧ group ∈ s.userGroups user then
    { state :=
        { s with userGroups := fun u =>
            if u = user then (s.userGroups u).erase group
            else s.userGroups u },
      notices := [(user, removedFromGroupMsg group)] }
  else { state := s, notices := [(user, notInGroupMsg group)] }

/-- An executable enumeration of a finite set of strings (Python set
iteration yields its elements in some order; this picks the sorted
one). -/
def enumSet (t : Finset Str) : List Str := t.sort (· ≤ ·)

/-- The stored `users` value: one entry per user of
`{groups: [...], muted_groups: [...]}` (bot.py 98-104). -/
abbrev StoredUsers := List (Str × List Str × List Str)

/-- `save_state_to_storage` (bot.py 95-107): one entry per user of the
distribution list, with membership and mute sets serialized as lists. -/
def save_state_to_storage (s : Registry) : StoredUsers :=
  (enumSet s.distro).map
    (fun u => (u, enumSet (s.userGroups u), enumSet (s.mutedUsers u)))

/-- `save_state_to_storage` up to iteration order: `entries` is a
possible serialization of `s` — its keys enumerate the distribution
list without repetition and each user's lists enumerate that user's
membership and mute sets.  Python set iteration order is arbitrary, so
any such `entries` is a possible output of the save. -/
def RepresentsSave (s : Registry) (entries : StoredUsers) : Prop :=
  (entries.map Prod.fst).Nodup ∧
  (∀ e ∈ entries, e.1 ∈ s.distro ∧ e.2.1.toFinset = s.userGroups e.1 ∧
    e.2.2.toFinset = s.mutedUsers e.1) ∧
  ∀ u ∈ s.distro, u ∈ entries.map Prod.fst

/-- One stored user folded into the in-memory state (bot.py 87-90):
add the user to the distribution list and assign their group and mute
sets from the stored lists. -/
def loadUser (st : Registry) (e : Str × List Str × List Str) : Registry :=
  { distro := insert e.1 st.distro,
    userGroups := fun u =>
      if u = e.1 then e.2.1.toFinset else st.userGroups u,
    mutedUsers := fun u =>
      if u = e.1 then e.2.2.toFinset else st.mutedUsers u }

/-- `load_state_from_storage` into a fresh registry (bot.py 81-93 after
`setup_state` initialised empty state): each stored user is added to
the distribution list and their group/mute sets are assigned. -/
def load_state_from_storage (entries : StoredUsers) : Registry :=
  entries.foldl loadUser Registry.init

/-- Modelled from the spec: the `/mute` command is announced in the
bot's help text (bot.py 379) but its handler is not in the source
file; per the spec's MuteSet description it adds the named group to
the invoking user's mute set. -/
def muteGroup (s : Registry) (user group : Str) : Registry :=
  { s with mutedUsers := fun u =>
      if u = user then insert group (s.mutedUsers u) else s.mutedUsers u }

/-- The recipient filter of `_send_to_users` (bot.py 362-368): every
distribution-list user for a direct send (`group = none`), and for a
group send every distribution-list user who is a member of the group
and has not muted it. -/
def eligibleRecipients (s : Registry) (group : Option Str) : Finset Str :=
  match group with
  | none => s.distro
  | some g => s.distro.filter (fun u => g ∈ s.userGroups u ∧ g ∉ s.mutedUsers u)

/-- `_send_to_users` (bot.py 362-368) with the delivery capability made
explicit: one delivery attempt per eligible recipient, recording each
recipient together with its delivery outcome.  All attempts are
submitted regardless of other attempts' outcomes. -/
def send_to_users (deliver : Str → Str → Bool) (s : Registry) (text : Str)
    (group : Option Str) : List (Str × Bool) :=
  (enumSet (eligibleRecipients s group)).map (fun u => (u, deliver u text))

/-- Formatted text of bot.py line 343. -/
def fmtDirect (sender body : Str) : Str :=
  "Direct message from ".data ++ sender ++ ": ".data ++ body

/-- Formatted text of bot.py line 350. -/
def fmtGroup (sender group body : Str) : Str :=
  "Group message from ".data ++ sender ++ " to ".data ++ group ++
    ": ".data ++ body

/-- Formatted text of bot.py line 357. -/
def fmtUrgent (sender group body : Str) : Str :=
  "URGENT message from ".data ++ sender ++ " to ".data ++ group ++
    ": ".data ++ body

/-- Observable effects of one dispatch: the per-recipient delivery
attempts with their outcomes, and the history records written. -/
structure DispatchResult where
  deliveries : List (Str × Bool)
  history : List (Str × Str × Str)

/-- `forward_direct_message` (bot.py 341-346): fan out the formatted
text to every distribution-list user, then write one history record
with destination label `DIRECT`. -/
def forward_direct_message (deliver : Str → Str → Bool) (s : Registry)
    (sender message : Str) : DispatchResult :=
  { deliveries := send_to_users deliver s (fmtDirect sender message) none,
    history := [(sender, "DIRECT".data, message)] }

/-- `forward_group_message` (bot.py 348-353): fan out to the group's
unmuted members, then write one history record labelled with the group. -/
def forward_group_message (deliver : Str → Str → Bool) (s : Registry)
    (sender group message : Str) : DispatchResult :=
  { deliveries :=
      send_to_users deliver s (fmtGroup sender group message) (some group),
    history := [(sender, group, message)] }

/-- `forward_urgent_message` (bot.py 355-360): like a group message
with urgent framing. -/
def forward_urgent_message (deliver : Str → Str → Bool) (s : Registry)
    (sender group message : Str) : DispatchResult :=
  { deliveries :=
      send_to_users deliver s (fmtUrgent sender group message) (some group),
    history := [(sender, group, message)] }

/-- The whole per-event pipeline of `handle_js8call_message`
(bot.py 301-336): classification followed by the matching forward.
Ignored, malformed and blocked events produce no effects; the handler
never mutates the registry, which is returned unchanged. -/
def processEvent (deliver : Str → Str → Bool)
    (js8groups js8urgent blockedWords : List Str) (s : Registry)
    (ev : RadioEvent) : DispatchResult × Registry :=
  match handle_js8call_message js8groups js8urgent blockedWords ev with
  | .routed (.direct sender body) =>
      (forward_direct_message deliver s sender body, s)
  | .routed (.group g sender body) =>
      (forward_group_message deliver s sender g body, s)
  | .routed (.urgent g sender body) =>
      (forward_urgent_message deliver s sender g body, s)
  | _ => (⟨[], []⟩, s)

end JS8Bot

namespace JS8Bot

/-- Outcome of one socket read attempt in `process_js8call_messages`. -/
inductive ReadEvent where
  | dataLines (lines : List Str)
  | peerClose
  | readError
deriving DecidableEq

/-- The connection-state effect of `process_js8call_messages`
(bot.py 272-299): a successful read keeps the link connected; an empty
read (peer close, bot.py 280-283) or a raised read error
(bot.py 297-299) marks it disconnected.  Every exception is caught
inside the function, so it never raises into the owning loop. -/
def process_js8call_step (connected : Bool) (ev : ReadEvent) : Bool :=
  if !connected then connected
  else
    match ev with
    | .dataLines _ => true
    | .peerClose => false
    | .readError => false

/-- One iteration of the body of `js8call_loop` (bot.py 248-254):
reconnect if disconnected (`connect_js8call` catches its own failures,
bot.py 263-270, leaving the link disconnected on failure), then
process pending reads while connected.  Connect failures, read errors
and peer closes are all handled inside the callees, so for every such
event the body completes normally (`Except.ok`); `Except.error` is
reserved for an exception escaping the body. -/
def js8call_loop_body (connected connectOk : Bool) (ev : ReadEvent) :
    Except Unit Bool :=
  let c1 := if !connected then connectOk else connected
  let c2 := if c1 then process_js8call_step c1 ev else c1
  Except.ok c2

/-- One iteration of `js8call_loop` with its sleeps (bot.py 247-257):
a body that completes is followed by `time.sleep(1)` (bot.py 254); an
exception escaping the body is followed by `time.sleep(5)`
(bot.py 255-257).  Returns the connection state after the iteration
and the sleep duration in seconds. -/
def js8call_loop_step (connected connectOk : Bool) (ev : ReadEvent) :
    Bool × Nat :=
  match js8call_loop_body connected connectOk ev with
  | .ok c => (c, 1)
  | .error _ => (connected, 5)

end JS8Bot

namespace JS8Bot

theorem find?_of_first (p : Str → Bool) (l : List Str) (i : Nat) (g : Str)
    (hg : l.get? i = some g) (hp : p g = true)
    (hmin : ∀ j, j < i → ∀ g', l.get? j = some g' → p g' = false) :
    l.find? p = some g := by
  induction l generalizing i with
  | nil => simp at hg
  | cons x xs ih =>
    cases i with
    | zero =>
      simp only [List.get?] at hg
      cases hg
      simp [List.find?, hp]
    | succ n =>
      have hx : p x = false := hmin 0 (Nat.succ_pos n) x rfl
      simp only [List.get?] at hg
      rw [List.find?]
      rw [hx]
      exact ih n hg (fun j hj g' hgj => hmin (j + 1) (by omega) g' hgj)

theorem find?_eq_none_of_all (p : Str → Bool) (l : List Str)
    (h : ∀ g ∈ l, p g = false) : l.find? p = none := by
  induction l with
  | nil => rfl
  | cons x xs ih =>
    rw [List.find?]
    rw [h x (List.mem_cons_self x xs)]
    exact ih (fun g hg => h g (List.mem_cons_of_mem x hg))

/-- Whatever `parseDirected` returns is already stripped. -/
theorem parseDirected_trimmed (value sender content : Str)
    (h : parseDirected value = some (sender, content)) :
    trimChars sender = sender ∧ trimChars content = content := by
  unfold parseDirected at h
  by_cases hl : (splitOnChar ':' value).length < 2
  · simp [hl] at h
  · simp only [hl, if_false] at h
    rw [Option.some_inj, Prod.mk.injEq] at h
    obtain ⟨h1, h2⟩ := h
    exact ⟨h1 ▸ trimChars_idem _, h2 ▸ trimChars_idem _⟩

/-- C1: only events of kind `RX.DIRECTED` are acted upon (all other
kinds yield `ignored`); a value containing no `:` is dropped as
invalid; otherwise the sender is the part before the first `:`,
trimmed, and the content is everything after the first `:` (rejoined
on `:` when several colons occur), trimmed. -/
theorem C1_directed_parse (js8groups js8urgent blockedWords : List Str)
    (ev : RadioEvent) (pre suf : Str) :
    (ev.type ≠ "RX.DIRECTED".data →
      handle_js8call_message js8groups js8urgent blockedWords ev = .ignored) ∧
    (ev.type = "RX.DIRECTED".data → ':' ∉ ev.value →
      handle_js8call_message js8groups js8urgent blockedWords ev
        = .invalidFormat) ∧
    (ev.value = pre ++ ':' :: suf → ':' ∉ pre →
      parseDirected ev.value = some (trimChars pre, trimChars suf)) := by
  refine ⟨fun hty => ?_, fun hty hcolon => ?_, fun hval hpre => ?_⟩
  · unfold handle_js8call_message
    rw [if_neg hty]
  · unfold handle_js8call_message
    rw [if_pos hty]
    have : parseDirected ev.value = none := by
      unfold parseDirected
      rw [if_pos]
      rw [splitOnChar_length_one ':' ev.value hcolon]
      omega
    rw [this]
  · rw [hval]
    unfold parseDirected
    rw [splitOnChar_append ':' pre suf hpre]
    have hne := splitOnChar_ne_nil ':' suf
    have hlen : ¬ (pre :: splitOnChar ':' suf).length < 2 := by
      cases hs : splitOnChar ':' suf with
      | nil => exact absurd hs hne
      | cons p ps => simp [List.length_cons]
    rw [if_neg hlen]
    simp only [List.headI, List.tail_cons]
    rw [joinChar_splitOnChar]

/-- Witness for C1 at the spec's own example value. -/
theorem C1_directed_parse_witness :
    parseDirected "N0CALL: Hello world".data
        = some (trimChars "N0CALL".data, trimChars " Hello world".data) ∧
    trimChars "N0CALL".data = "N0CALL".data ∧
    trimChars " Hello world".data = "Hello world".data :=
  ⟨(C1_directed_parse [] [] []
      ⟨"RX.DIRECTED".data, "N0CALL: Hello world".data⟩
      "N0CALL".data " Hello world".data).2.2 (by decide) (by decide),
    by decide, by decide⟩

end JS8Bot

namespace JS8Bot

/-- C2: scope resolution priority for a parsed message that passed the
blocked-word check.  (1) If the content starts (plain string-prefix
match) with an ordinary-group name, the first matching group in
catalog order wins: that name is stripped off the front, the remainder
trimmed, and the message is a group message to that group.  (2) Only
when no ordinary group matches is the urgent catalog consulted, with
the same first-match rule.  (3) When no group of either catalog
matches, the message is direct with the full content as body. -/
theorem C2_scope_resolution (js8groups js8urgent : List Str)
    (sender content : Str) (i : Nat) (g : Str) :
    (js8groups.get? i = some g → startsWithStr content g = true →
      (∀ j, j < i → ∀ g', js8groups.get? j = some g' →
        startsWithStr content g' = false) →
      resolveScope js8groups js8urgent sender content
        = .group g sender (trimChars (content.drop g.length))) ∧
    ((∀ g' ∈ js8groups, startsWithStr content g' = false) →
      js8urgent.get? i = some g → startsWithStr content g = true →
      (∀ j, j < i → ∀ g', js8urgent.get? j = some g' →
        startsWithStr content g' = false) →
      resolveScope js8groups js8urgent sender content
        = .urgent g sender (trimChars (content.drop g.length))) ∧
    ((∀ g' ∈ js8groups, startsWithStr content g' = false) →
      (∀ g' ∈ js8urgent, startsWithStr content g' = false) →
      resolveScope js8groups js8urgent sender content
        = .direct sender content) := by
  refine ⟨fun hg hp hmin => ?_, fun hnone hg hp hmin => ?_,
    fun hnone hnone' => ?_⟩
  · unfold resolveScope
    rw [find?_of_first _ js8groups i g hg hp hmin]
  · unfold resolveScope
    rw [find?_eq_none_of_all _ js8groups hnone,
      find?_of_first _ js8urgent i g hg hp hmin]
  · unfold resolveScope
    rw [find?_eq_none_of_all _ js8groups hnone,
      find?_eq_none_of_all _ js8urgent hnone']

/-- Witness for C2: a one-letter group `A` placed before `AB` in the
catalog captures content starting with `AB` (no word-boundary check),
and the urgent catalog is only reached when no ordinary group matches. -/
theorem C2_scope_resolution_witness :
    resolveScope ["A".data, "AB".data] ["X".data] "N0CALL".data "ABC go".data
        = .group "A".data "N0CALL".data
            (trimChars ("ABC go".data.drop "A".data.length)) ∧
    resolveScope ["TEAM".data] ["X".data] "N0CALL".data "X now".data
        = .urgent "X".data "N0CALL".data
            (trimChars ("X now".data.drop "X".data.length)) ∧
    resolveScope ["TEAM".data] ["X".data] "N0CALL".data "hello".data
        = .direct "N0CALL".data "hello".data :=
  ⟨(C2_scope_resolution ["A".data, "AB".data] ["X".data] "N0CALL".data
      "ABC go".data 0 "A".data).1 (by decide) (by decide)
      (fun j hj g' _ => absurd hj (by omega)),
   (C2_scope_resolution ["TEAM".data] ["X".data] "N0CALL".data
      "X now".data 0 "X".data).2.1 (by decide) (by decide) (by decide)
      (fun j hj g' _ => absurd hj (by omega)),
   (C2_scope_resolution ["TEAM".data] ["X".data] "N0CALL".data
      "hello".data 0 "X".data).2.2 (by decide) (by decide)⟩

end JS8Bot

namespace JS8Bot

theorem map_fst_mk {β : Type} (d : Str → β) (l : List Str) :
    (l.map (fun u => (u, d u))).map Prod.fst = l := by
  induction l with
  | nil => rfl
  | cons x xs ih => simp only [List.map_cons, ih]

/-- C3: a direct dispatch reaches exactly the current distribution
list; a group (or urgent) dispatch to `g` reaches exactly the
distribution-list users who are members of `g` and have not muted `g`.
The recipient set is a function of the registry state consulted at the
dispatch — muting `g` for `v` between two dispatches removes exactly
`v` from the second recipient set — and the delivery attempts of
`_send_to_users` enumerate exactly that set. -/
theorem C3_recipient_sets (deliver : Str → Str → Bool) (s : Registry)
    (u g v text : Str) :
    (u ∈ eligibleRecipients s none ↔ u ∈ s.distro) ∧
    (u ∈ eligibleRecipients s (some g) ↔
      u ∈ s.distro ∧ g ∈ s.userGroups u ∧ g ∉ s.mutedUsers u) ∧
    (eligibleRecipients (muteGroup s v g) (some g)
      = (eligibleRecipients s (some g)).erase v) ∧
    ((send_to_users deliver s text none).map Prod.fst
      = enumSet (eligibleRecipients s none)) ∧
    ((send_to_users deliver s text (some g)).map Prod.fst
      = enumSet (eligibleRecipients s (some g))) := by
  refine ⟨Iff.rfl, ?_, ?_, ?_, ?_⟩
  · simp [eligibleRecipients, Finset.mem_filter]
  · ext x
    by_cases hx : x = v
    · subst hx
      simp [eligibleRecipients, muteGroup, Finset.mem_filter,
        Finset.mem_erase]
    · simp [eligibleRecipients, muteGroup, Finset.mem_filter,
        Finset.mem_erase, hx]
  · exact map_fst_mk _ _
  · exact map_fst_mk _ _

/-- C4: a parsed message whose content matches a blocked word
(case-insensitive substring) has no effect at all: no delivery
attempt, no history record, and the registry is returned unchanged. -/
theorem C4_blocked_no_effects (deliver : Str → Str → Bool)
    (js8groups js8urgent blockedWords : List Str) (s : Registry)
    (ev : RadioEvent) (sender content : Str)
    (htype : ev.type = "RX.DIRECTED".data)
    (hparse : parseDirected ev.value = some (sender, content))
    (hblock : containsBlocked blockedWords content = true) :
    processEvent deliver js8groups js8urgent blockedWords s ev
      = (⟨[], []⟩, s) := by
  unfold processEvent handle_js8call_message
  rw [if_pos htype, hparse]
  simp [hblock]

/-- Witness for C4: a blocked word matching case-insensitively drops
the whole message with no deliveries and no history. -/
theorem C4_blocked_no_effects_witness :
    processEvent (fun _ _ => true) ["TEAM".data] [] ["SPAM".data]
      Registry.init ⟨"RX.DIRECTED".data, "N0CALL: buy spam now".data⟩
      = (⟨[], []⟩, Registry.init) :=
  C4_blocked_no_effects (fun _ _ => true) ["TEAM".data] [] ["SPAM".data]
    Registry.init ⟨"RX.DIRECTED".data, "N0CALL: buy spam now".data⟩
    "N0CALL".data "buy spam now".data (by decide) (by decide) (by decide)

/-- C5: each forward writes exactly one history record — destination
label `DIRECT` for a direct message, the group name for a group or
urgent one — and the set of recipients attempted does not depend on
the delivery capability's outcomes (the same recipients are attempted
whatever `deliver` returns, so one failing recipient never suppresses
the others or the record). -/
theorem C5_dispatch_effects (deliver : Str → Str → Bool) (s : Registry)
    (sender g body : Str) :
    ((forward_direct_message deliver s sender body).history
        = [(sender, "DIRECT".data, body)]) ∧
    ((forward_group_message deliver s sender g body).history
        = [(sender, g, body)]) ∧
    ((forward_urgent_message deliver s sender g body).history
        = [(sender, g, body)]) ∧
    ((forward_direct_message deliver s sender body).deliveries.map Prod.fst
        = enumSet (eligibleRecipients s none)) ∧
    ((forward_group_message deliver s sender g body).deliveries.map Prod.fst
        = enumSet (eligibleRecipients s (some g))) ∧
    ((forward_urgent_message deliver s sender g body).deliveries.map Prod.fst
        = enumSet (eligibleRecipients s (some g))) := by
  exact ⟨rfl, rfl, rfl, map_fst_mk _ _, map_fst_mk _ _, map_fst_mk _ _⟩

end JS8Bot

namespace JS8Bot

/-- Registry states reachable through the registry operations present
in the source (`add_to_distro_list`, `remove_from_distro_list`,
`add_user_to_groups`, `remove_user_from_group`), starting from the
fresh state built by `setup_state`. -/
inductive Reachable (defaults js8groups js8urgent : List Str) :
    Registry → Prop
  | init : Reachable defaults js8groups js8urgent Registry.init
  | join (s : Registry) (u : Str) :
      Reachable defaults js8groups js8urgent s →
      Reachable defaults js8groups js8urgent
        (add_to_distro_list defaults s u).state
  | leave (s : Registry) (u : Str) :
      Reachable defaults js8groups js8urgent s →
      Reachable defaults js8groups js8urgent
        (remove_from_distro_list s u).state
  | joinGroups (s : Registry) (u : Str) (gs : List Str) :
      Reachable defaults js8groups js8urgent s →
      Reachable defaults js8groups js8urgent
        (add_user_to_groups js8groups js8urgent s u gs).state
  | leaveGroup (s : Registry) (u g : Str) :
      Reachable defaults js8groups js8urgent s →
      Reachable defaults js8groups js8urgent
        (remove_user_from_group s u g).state

/-- In every reachable state, a user outside the distribution list has
empty membership and mute entries (the Python `defaultdict` never
acquires an entry for them through these operations). -/
theorem reachable_inert (defaults js8groups js8urgent : List Str)
    (s : Registry) (h : Reachable defaults js8groups js8urgent s) :
    ∀ x, x ∉ s.distro → s.userGroups x = ∅ ∧ s.mutedUsers x = ∅ := by
  induction h with
  | init => exact fun x _ => ⟨rfl, rfl⟩
  | join s u hs ih =>
    intro x hx
    by_cases hu : u ∉ s.distro
    · simp only [add_to_distro_list, if_pos hu] at hx ⊢
      simp only [Finset.mem_insert, not_or] at hx
      rw [if_neg hx.1]
      exact ih x hx.2
    · simp only [add_to_distro_list, if_neg hu] at hx ⊢
      exact ih x hx
  | leave s u hs ih =>
    intro x hx
    by_cases hu : u ∈ s.distro
    · simp only [remove_from_distro_list, if_pos hu] at hx ⊢
      by_cases hxu : x = u
      · rw [if_pos hxu, if_pos hxu]
        exact ⟨rfl, rfl⟩
      · rw [if_neg hxu, if_neg hxu]
        exact ih x (fun hxd => hx (Finset.mem_erase.mpr ⟨hxu, hxd⟩))
    · simp only [remove_from_distro_list, if_neg hu] at hx ⊢
      exact ih x hx
  | joinGroups s u gs hs ih =>
    intro x hx
    by_cases hu : u ∈ s.distro
    · simp only [add_user_to_groups, if_pos hu] at hx ⊢
      have hxu : ¬ x = u := fun he => hx (he ▸ hu)
      rw [if_neg hxu]
      exact ih x hx
    · simp only [add_user_to_groups, if_neg hu] at hx ⊢
      exact ih x hx
  | leaveGroup s u g hs ih =>
    intro x hx
    by_cases hc : u ∈ s.distro ∧ g ∈ s.userGroups u
    · simp only [remove_user_from_group, if_pos hc] at hx ⊢
      have hxu : ¬ x = u := fun he => hx (he ▸ hc.1)
      rw [if_neg hxu]
      exact ih x hx
    · simp only [remove_user_from_group, if_neg hc] at hx ⊢
      exact ih x hx

/-- C6: joining when absent adds the user to the distribution list,
makes their membership exactly the configured default groups, and
sends a welcome notice; joining when already present changes no
registry state and sends an already-joined notice. -/
theorem C6_join (defaults js8groups js8urgent : List Str) (s : Registry)
    (u : Str) (h : Reachable defaults js8groups js8urgent s) :
    (u ∉ s.distro →
      (add_to_distro_list defaults s u).state.distro = insert u s.distro ∧
      (add_to_distro_list defaults s u).state.userGroups u
        = defaults.toFinset ∧
      (add_to_distro_list defaults s u).notices
        = [(u, welcomeMsg defaults)]) ∧
    (u ∈ s.distro →
      (add_to_distro_list defaults s u).state = s ∧
      (add_to_distro_list defaults s u).notices
        = [(u, alreadyJoinedMsg)]) := by
  constructor
  · intro hu
    have hempty :=
      (reachable_inert defaults js8groups js8urgent s h u hu).1
    refine ⟨?_, ?_, ?_⟩ <;> simp only [add_to_distro_list, if_pos hu]
    · rw [if_true, hempty]
      exact Finset.empty_union _
  · intro hu
    have hu' : ¬ u ∉ s.distro := not_not_intro hu
    exact ⟨by simp only [add_to_distro_list, if_neg hu'],
      by simp only [add_to_distro_list, if_neg hu']⟩

/-- Witness for C6: joining a fresh registry seeds exactly the parsed
default groups. -/
theorem C6_join_witness :
    (add_to_distro_list (parseDefaultGroups "alpha, beta".data)
        Registry.init "USER1".data).state.userGroups "USER1".data
      = (parseDefaultGroups "alpha, beta".data).toFinset :=
  ((C6_join (parseDefaultGroups "alpha, beta".data) [] [] Registry.init
      "USER1".data Reachable.init).1 (by decide)).2.1

/-- C7: leaving when present removes the user from the distribution
list and clears their membership and mute entries in the same
operation; leaving when absent changes no registry state and sends a
not-joined notice, so a second leave right after a first is such a
no-op. -/
theorem C7_leave (s : Registry) (u : Str) :
    (u ∈ s.distro →
      (remove_from_distro_list s u).state.distro = s.distro.erase u ∧
      u ∉ (remove_from_distro_list s u).state.distro ∧
      (remove_from_distro_list s u).state.userGroups u = ∅ ∧
      (remove_from_distro_list s u).state.mutedUsers u = ∅ ∧
      (remove_from_distro_list s u).notices = [(u, removedAllMsg)]) ∧
    (u ∉ s.distro →
      (remove_from_distro_list s u).state = s ∧
      (remove_from_distro_list s u).notices = [(u, notJoinedMsg)]) ∧
    (u ∈ s.distro →
      remove_from_distro_list (remove_from_distro_list s u).state u
        = ⟨(remove_from_distro_list s u).state, [(u, notJoinedMsg)]⟩) := by
  refine ⟨fun hu => ?_, fun hu => ?_, fun hu => ?_⟩
  · refine ⟨?_, ?_, ?_, ?_, ?_⟩ <;>
      simp only [remove_from_distro_list, if_pos hu]
    · exact Finset.not_mem_erase u s.distro
    · rw [if_true]
    · rw [if_true]
  · exact ⟨by simp only [remove_from_distro_list, if_neg hu],
      by simp only [remove_from_distro_list, if_neg hu]⟩
  · have habs : u ∉ (remove_from_distro_list s u).state.distro := by
      simp only [remove_from_distro_list, if_pos hu]
      exact Finset.not_mem_erase u s.distro
    have habs' : ¬ u ∈ (remove_from_distro_list s u).state.distro := habs
    conv_lhs => rw [remove_from_distro_list]
    rw [if_neg habs']

/-- Witness for C7: removing the only member of a one-user registry
clears all three maps for them, and a second leave is a no-op with the
not-joined notice. -/
theorem C7_leave_witness :
    ((remove_from_distro_list
        (add_to_distro_list [] Registry.init "USER1".data).state
        "USER1".data).state.userGroups "USER1".data = ∅) ∧
    (remove_from_distro_list
        (remove_from_distro_list
          (add_to_distro_list [] Registry.init "USER1".data).state
          "USER1".data).state "USER1".data
      = ⟨(remove_from_distro_list
            (add_to_distro_list [] Registry.init "USER1".data).state
            "USER1".data).state, [("USER1".data, notJoinedMsg)]⟩) :=
  ⟨((C7_leave (add_to_distro_list [] Registry.init "USER1".data).state
      "USER1".data).1 (by decide)).2.2.1,
   (C7_leave (add_to_distro_list [] Registry.init "USER1".data).state
      "USER1".data).2.2 (by decide)⟩

end JS8Bot

namespace JS8Bot

theorem foldl_loadUser_distro (entries : StoredUsers) :
    ∀ (st : Registry) (x : Str),
      (x ∈ (entries.foldl loadUser st).distro ↔
        x ∈ st.distro ∨ x ∈ entries.map Prod.fst) := by
  induction entries with
  | nil => intro st x; simp
  | cons e rest ih =>
    intro st x
    simp only [List.foldl_cons, List.map_cons, List.mem_cons]
    rw [ih]
    simp only [loadUser, Finset.mem_insert]
    tauto

theorem foldl_loadUser_not_mem (entries : StoredUsers) :
    ∀ (st : Registry) (x : Str), x ∉ entries.map Prod.fst →
      (entries.foldl loadUser st).userGroups x = st.userGroups x ∧
      (entries.foldl loadUser st).mutedUsers x = st.mutedUsers x := by
  induction entries with
  | nil => exact fun st x _ => ⟨rfl, rfl⟩
  | cons e rest ih =>
    intro st x hx
    simp only [List.map_cons, List.mem_cons, not_or] at hx
    simp only [List.foldl_cons]
    obtain ⟨h1, h2⟩ := ih (loadUser st e) x hx.2
    rw [h1, h2]
    simp only [loadUser]
    rw [if_neg hx.1, if_neg hx.1]
    exact ⟨rfl, rfl⟩

theorem foldl_loadUser_mem (entries : StoredUsers) :
    ∀ (st : Registry) (x : Str) (gs ms : List Str),
      (entries.map Prod.fst).Nodup → (x, gs, ms) ∈ entries →
      (entries.foldl loadUser st).userGroups x = gs.toFinset ∧
      (entries.foldl loadUser st).mutedUsers x = ms.toFinset := by
  induction entries with
  | nil => intro st x gs ms _ hmem; cases hmem
  | cons e rest ih =>
    intro st x gs ms hnd hmem
    simp only [List.map_cons, List.nodup_cons] at hnd
    simp only [List.foldl_cons]
    rcases List.mem_cons.mp hmem with he | hrest
    · have hx : x ∉ rest.map Prod.fst := by
        have : e.1 = x := by rw [← he]
        rw [← this]
        exact hnd.1
      obtain ⟨h1, h2⟩ := foldl_loadUser_not_mem rest (loadUser st e) x hx
      rw [h1, h2]
      rw [← he]
      simp only [loadUser]
      rw [if_true, if_true]
      exact ⟨rfl, rfl⟩
    · exact ih (loadUser st e) x gs ms hnd.2 hrest

/-- C8: for every reachable registry state, the save is a faithful
serialization (`RepresentsSave`), and loading any serialization of the
state — whatever order its user entries and set elements were written
in — into a fresh registry reproduces the distribution list and every
user's membership and mute sets. -/
theorem C8_save_load_roundtrip (defaults js8groups js8urgent : List Str)
    (s : Registry) (h : Reachable defaults js8groups js8urgent s)
    (entries : StoredUsers) (hrep : RepresentsSave s entries) :
    RepresentsSave s (save_state_to_storage s) ∧
    (load_state_from_storage entries).distro = s.distro ∧
    (∀ u, (load_state_from_storage entries).userGroups u
      = s.userGroups u) ∧
    (∀ u, (load_state_from_storage entries).mutedUsers u
      = s.mutedUsers u) := by
  obtain ⟨hnd, hent, hkeys⟩ := hrep
  have hkey_mem : ∀ x, x ∈ entries.map Prod.fst → x ∈ s.distro := by
    intro x hx
    obtain ⟨e, he, hex⟩ := List.mem_map.mp hx
    exact hex ▸ (hent e he).1
  refine ⟨⟨?_, ?_, ?_⟩, ?_, ?_, ?_⟩
  · rw [save_state_to_storage, map_fst_mk]
    exact Finset.sort_nodup _ _
  · intro e he
    rw [save_state_to_storage] at he
    obtain ⟨u, hu, rfl⟩ := List.mem_map.mp he
    rw [enumSet, Finset.mem_sort] at hu
    exact ⟨hu, Finset.sort_toFinset _ _, Finset.sort_toFinset _ _⟩
  · intro u hu
    rw [save_state_to_storage, map_fst_mk, enumSet, Finset.mem_sort]
    exact hu
  · ext x
    rw [load_state_from_storage, foldl_loadUser_distro]
    constructor
    · rintro (hx | hx)
      · cases hx
      · exact hkey_mem x hx
    · exact fun hx => Or.inr (hkeys x hx)
  · intro u
    by_cases hu : u ∈ s.distro
    · obtain ⟨e, he, heu⟩ := List.mem_map.mp (hkeys u hu)
      have hmem : (u, e.2.1, e.2.2) ∈ entries := by
        have : e = (u, e.2.1, e.2.2) := by
          rw [← heu]
        rw [← this]
        exact he
      rw [load_state_from_storage,
        (foldl_loadUser_mem entries Registry.init u e.2.1 e.2.2 hnd hmem).1]
      exact heu ▸ (hent e he).2.1
    · have hx : u ∉ entries.map Prod.fst := fun hx => hu (hkey_mem u hx)
      rw [load_state_from_storage,
        (foldl_loadUser_not_mem entries Registry.init u hx).1]
      exact ((reachable_inert defaults js8groups js8urgent s h u hu).1).symm
  · intro u
    by_cases hu : u ∈ s.distro
    · obtain ⟨e, he, heu⟩ := List.mem_map.mp (hkeys u hu)
      have hmem : (u, e.2.1, e.2.2) ∈ entries := by
        have : e = (u, e.2.1, e.2.2) := by
          rw [← heu]
        rw [← this]
        exact he
      rw [load_state_from_storage,
        (foldl_loadUser_mem entries Registry.init u e.2.1 e.2.2 hnd hmem).2]
      exact heu ▸ (hent e he).2.2
    · have hx : u ∉ entries.map Prod.fst := fun hx => hu (hkey_mem u hx)
      rw [load_state_from_storage,
        (foldl_loadUser_not_mem entries Registry.init u hx).2]
      exact ((reachable_inert defaults js8groups js8urgent s h u hu).2).symm

/-- Witness for C8: a one-user registry reached by a join is
reproduced by loading a serialization of it. -/
theorem C8_save_load_roundtrip_witness :
    (load_state_from_storage [("u".data, ["g".data], [])]).distro
      = (add_to_distro_list ["g".data] Registry.init "u".data).state.distro ∧
    (load_state_from_storage [("u".data, ["g".data], [])]).userGroups "u".data
      = (add_to_distro_list ["g".data] Registry.init
          "u".data).state.userGroups "u".data :=
  ⟨(C8_save_load_roundtrip ["g".data] [] []
      (add_to_distro_list ["g".data] Registry.init "u".data).state
      (Reachable.join Registry.init "u".data Reachable.init)
      [("u".data, ["g".data], [])]
      ⟨by decide, by decide, by decide⟩).2.1,
   (C8_save_load_roundtrip ["g".data] [] []
      (add_to_distro_list ["g".data] Registry.init "u".data).state
      (Reachable.join Registry.init "u".data Reachable.init)
      [("u".data, ["g".data], [])]
      ⟨by decide, by decide, by decide⟩).2.2.1 "u".data⟩

end JS8Bot

namespace JS8Bot

/-- C9 counterexample: a read error while connected marks the link
disconnected but is followed by the loop's 1-unit sleep, not a 5-unit
backoff, before the next iteration (which performs the reconnect):
`process_js8call_messages` catches the error itself (bot.py 297-299),
so the loop's `except`/`sleep(5)` branch (bot.py 255-257) is not
taken. -/
theorem C9_counterexample :
    js8call_loop_step true true ReadEvent.readError = (false, 1) ∧
    js8call_loop_step true true ReadEvent.readError ≠ (false, 5) := by
  decide

/-- C9 (amended): on a read error or a peer close the link is marked
disconnected and the loop sleeps the fixed 1-unit poll interval before
the next iteration — hence before the next connect attempt — because
`process_js8call_messages` handles those events internally and never
raises into the loop; the 5-unit backoff is taken only when an
exception escapes the loop body, which never happens for the modelled
link events; while connected with successful reads the loop likewise
sleeps 1 unit between read attempts. -/
theorem C9_loop_timing (connectOk : Bool) (ev : ReadEvent) :
    ((ev = ReadEvent.readError ∨ ev = ReadEvent.peerClose) →
      js8call_loop_step true connectOk ev = (false, 1)) ∧
    (∀ lines, ev = ReadEvent.dataLines lines →
      js8call_loop_step true connectOk ev = (true, 1)) ∧
    (∀ connected, (js8call_loop_step connected connectOk ev).2 = 1) := by
  refine ⟨?_, ?_, ?_⟩
  · rintro (rfl | rfl) <;> rfl
  · intro lines h
    rw [h]
    rfl
  · intro connected
    cases ev <;> cases connected <;> cases connectOk <;> rfl

/-- Witness for C9 (amended) at the read-error event. -/
theorem C9_loop_timing_witness :
    js8call_loop_step true true ReadEvent.peerClose = (false, 1) :=
  (C9_loop_timing true ReadEvent.peerClose).1 (Or.inr rfl)

/-- C10: with the ordinary-group configuration absent or empty, the
catalog built by `setup_js8call` is the one-element list containing
the empty string (splitting the empty string on `,` yields one empty
entry); every content starts with the empty string, so every
non-blocked `RX.DIRECTED` message is classified as a group message to
the group named `""` with the full content as body — never as direct
or urgent. -/
theorem C10_empty_catalog (js8urgent blockedWords : List Str)
    (ev : RadioEvent) (sender content : Str)
    (htype : ev.type = "RX.DIRECTED".data)
    (hparse : parseDirected ev.value = some (sender, content))
    (hblock : containsBlocked blockedWords content = false) :
    parseGroupsConfig [] = [([] : Str)] ∧
    handle_js8call_message (parseGroupsConfig []) js8urgent blockedWords ev
      = .routed (.group [] sender content) := by
  refine ⟨rfl, ?_⟩
  unfold handle_js8call_message
  rw [if_pos htype, hparse]
  simp only [hblock, Bool.false_eq_true, if_false]
  unfold resolveScope
  have hstart : startsWithStr content ([] : Str) = true := by
    cases content <;> rfl
  have hfind : ([([] : Str)]).find? (fun g => startsWithStr content g)
      = some [] := List.find?_cons_of_pos _ hstart
  rw [show parseGroupsConfig [] = [([] : Str)] from rfl, hfind]
  have htrim := (parseDirected_trimmed ev.value sender content hparse).2
  simp only [List.length_nil, List.drop_zero, htrim]

/-- Witness for C10: with an empty ordinary-group catalog even a plain
greeting becomes a group message to the empty-named group. -/
theorem C10_empty_catalog_witness :
    handle_js8call_message (parseGroupsConfig []) ["ALERT".data] []
      ⟨"RX.DIRECTED".data, "N0CALL: Hello".data⟩
      = .routed (.group [] "N0CALL".data "Hello".data) :=
  (C10_empty_catalog ["ALERT".data] []
    ⟨"RX.DIRECTED".data, "N0CALL: Hello".data⟩ "N0CALL".data "Hello".data
    (by decide) (by decide) (by decide)).2

end JS8Bot
